import Mathlib

/-!
Verification of `change_point.py` and `photon_tools/fcs_mem.py` against their
specification.  Python floating-point arrays are modelled as `List ℝ` (1-D)
and `List (List ℝ)` (2-D); `numpy.log` is `Real.log`.  Real-number division
by zero and `Real.log` of a non-positive argument are total in Lean (junk
values), so "the float result is finite" is captured by an explicit
well-definedness predicate on the expression actually evaluated by the code.
-/

namespace PhotonTools

/-- Embedding of `tau95(n)` from `change_point.py`.  The Python function
raises `RuntimeError('Implement me')` when neither `1 < n <= 100` nor
`100 < n` holds, which is modelled with `Except`. -/
noncomputable def tau95 (n : ℝ) : Except String ℝ :=
  if 1 < n ∧ n ≤ 100 then
    Except.ok ((3.0123 + 0.4835 * Real.log n - 0.00957 * Real.log (n ^ 2)
      - 0.001488 * Real.log (n ^ 3)) / n)
  else if 100 < n then
    Except.ok ((3.0806 + 0.4894 * Real.log n - 0.02086 * Real.log (n ^ 2)) / n)
  else
    Except.error "RuntimeError: Implement me"

/-- The spec names a two-parameter operation `criticalValue(n, alpha)`.  The
code realizes the critical value solely through `tau95(n)`: no alpha
parameter exists anywhere in `change_point.py` (`find_change_points` accepts
`alpha` but never passes it on), so the value computed for any requested
`alpha` is `tau95 n`. -/
noncomputable def criticalValue (n _alpha : ℝ) : Except String ℝ :=
  tau95 n

/-- Embedding of `compute_likelihood(times)` from `change_point.py`:
`N = len(times)`, `T = times[-1]`, `k = np.indices(times.shape)[0]`,
`Vk = times / T`, and the vectorized expression
`L = 2*k*log(k/Vk) + 2*(N-k)*log((N-k)/(1-Vk)) - 2*N*log(N)`. -/
noncomputable def compute_likelihood (times : List ℝ) : List ℝ :=
  let N : ℕ := times.length
  let T : ℝ := times.getLastD 0
  let Vk : List ℝ := times.map (fun t => t / T)
  List.zipWith
    (fun (k : ℕ) (v : ℝ) =>
      2 * (k : ℝ) * Real.log ((k : ℝ) / v)
        + 2 * ((N : ℝ) - (k : ℝ)) * Real.log (((N : ℝ) - (k : ℝ)) / (1 - v))
        - 2 * (N : ℝ) * Real.log (N : ℝ))
    (List.range N) Vk

/-- In IEEE arithmetic the entry `L[k]` of `compute_likelihood` is a finite
real number exactly when no `log` of a non-positive quantity and no division
by zero occurs (overflow ignored): the duration `T` is nonzero, both `log`
arguments `k/Vk[k]` and `(N-k)/(1-Vk[k])` are strictly positive (this already
forces `Vk[k] ≠ 0` and `1 - Vk[k] ≠ 0`, and fails at `k = 0` where the log
argument is `0`, matching the IEEE `0 * (-inf) = NaN`), and `log N` has a
positive argument. -/
def likelihoodFinite (times : List ℝ) (k : ℕ) : Prop :=
  let N : ℕ := times.length
  let T : ℝ := times.getLastD 0
  let v : ℝ := times.getD k 0 / T
  T ≠ 0 ∧ 0 < (k : ℝ) / v ∧ 0 < ((N : ℝ) - (k : ℝ)) / (1 - v) ∧ 0 < (N : ℝ)

/-- Embedding of `find_change_points(times, alpha=0.05)`.  With a nonempty
input the first loop iteration evaluates `compute_likelihood` on the first
chunk of (at most) 1000 events and then executes `k_max = argmax(L)`, but
`argmax` is an unbound name (the module imports only `np` and `log`), so the
call raises a `NameError`; with an empty input the loop body never runs and
the function falls off the end (it has no `return` statement). -/
noncomputable def find_change_points (times : List ℝ) (_alpha : ℝ) :
    Except String Unit :=
  match times with
  | [] => Except.ok ()
  | _ :: _ =>
    let t := times.take 1000
    let _L := compute_likelihood t
    Except.error "NameError: name argmax is not defined"

/-! ### Basic facts about `compute_likelihood` -/

/-- The likelihood profile has one entry per timestamp. -/
theorem compute_likelihood_length (times : List ℝ) :
    (compute_likelihood times).length = times.length := by
  simp [compute_likelihood]

/-- Closed form of entry `k` of the likelihood profile. -/
theorem compute_likelihood_getD (times : List ℝ) (k : ℕ) (hk : k < times.length) :
    (compute_likelihood times).getD k 0 =
      2 * (k : ℝ) * Real.log ((k : ℝ) / (times.getD k 0 / times.getLastD 0))
        + 2 * ((times.length : ℝ) - (k : ℝ))
            * Real.log (((times.length : ℝ) - (k : ℝ))
                / (1 - times.getD k 0 / times.getLastD 0))
        - 2 * (times.length : ℝ) * Real.log (times.length : ℝ) := by
  have hk' : k < (compute_likelihood times).length := by
    rw [compute_likelihood_length]; exact hk
  rw [List.getD_eq_getElem _ _ hk']
  simp only [compute_likelihood]
  rw [List.getElem_zipWith]
  rw [List.getElem_range, List.getElem_map]
  rw [List.getD_eq_getElem _ _ hk]

/-- For a nonempty list, `getLastD` (the Python `times[-1]`) is the entry at
position `length - 1`. -/
theorem getLastD_eq_getD :
    ∀ (l : List ℝ) (d : ℝ), l ≠ [] → l.getLastD d = l.getD (l.length - 1) 0
  | [], d, h => absurd rfl h
  | [a], _, _ => by simp [List.getLastD_cons]
  | a :: b :: t, d, _ => by
    have ih := getLastD_eq_getD (b :: t) a (by simp)
    rw [List.getLastD_cons, ih]
    simp

/-- Entries of a strictly increasing list (as produced by a timestamp
sequence) are strictly ordered under `getD`. -/
theorem getD_strictMono (times : List ℝ) (hmono : List.Chain' (· < ·) times)
    (i j : ℕ) (hij : i < j) (hj : j < times.length) :
    times.getD i 0 < times.getD j 0 := by
  have hp := (List.chain'_iff_pairwise).1 hmono
  rw [List.pairwise_iff_get] at hp
  have hi : i < times.length := lt_trans hij hj
  rw [List.getD_eq_getElem _ _ hi, List.getD_eq_getElem _ _ hj]
  simpa using hp ⟨i, hi⟩ ⟨j, hj⟩ hij

/-! ### Claims about `change_point.py` -/

/-- C4: for every timestamp list and every index `k < N`, entry `k` of
`compute_likelihood times` equals
`2k·log(k/Vk[k]) + 2(N-k)·log((N-k)/(1-Vk[k])) - 2N·log(N)` with
`T = times[-1]` and `Vk[k] = times[k]/T`. -/
theorem compute_likelihood_formula (times : List ℝ) (k : ℕ)
    (hk : k < times.length) :
    (compute_likelihood times).getD k 0 =
      2 * (k : ℝ) * Real.log ((k : ℝ) / (times.getD k 0 / times.getLastD 0))
        + 2 * ((times.length : ℝ) - (k : ℝ))
            * Real.log (((times.length : ℝ) - (k : ℝ))
                / (1 - times.getD k 0 / times.getLastD 0))
        - 2 * (times.length : ℝ) * Real.log (times.length : ℝ) :=
  compute_likelihood_getD times k hk

/-- Witness for C4 at `times = [1, 2]`, `k = 0`. -/
theorem compute_likelihood_formula_witness :
    0 < ([(1 : ℝ), 2]).length ∧
      (compute_likelihood [(1 : ℝ), 2]).getD 0 0 = 4 * Real.log 2 := by
  refine ⟨by norm_num, ?_⟩
  rw [compute_likelihood_formula [(1 : ℝ), 2] 0 (by norm_num)]
  norm_num
  have h4 : Real.log 4 = 2 * Real.log 2 := by
    rw [show (4 : ℝ) = 2 ^ 2 by norm_num, Real.log_pow]
    norm_num
  rw [h4]
  ring

/-- C1 counterexample: for the strictly increasing series `[1, 2]` (length
`N = 2`, last entry positive) the profile entry at index `k = N - 1 = 1`,
which the claim asserts to be finite, is not: `Vk[1] = 1`, so the second
`log` argument is `1/0`. -/
theorem likelihood_last_index_not_finite :
    List.Chain' (· < ·) [(1 : ℝ), 2] ∧ 2 ≤ ([(1 : ℝ), 2]).length ∧
      0 < ([(1 : ℝ), 2]).getLastD 0 ∧ 1 ≤ ([(1 : ℝ), 2]).length - 1 ∧
      ¬ likelihoodFinite [(1 : ℝ), 2] 1 := by
  refine ⟨?_, by norm_num, by norm_num, by norm_num, ?_⟩
  · norm_num [List.chain'_cons]
  · simp only [likelihoodFinite]
    norm_num

/-- C1 as amended: for a strictly increasing timestamp list of length
`N ≥ 2` whose first entry is nonnegative and whose last entry is positive,
`compute_likelihood` returns a profile of length `N` whose entries are
finite for every `k` with `1 ≤ k ≤ N - 2`; the entry at `k = N - 1`, where
`Vk = 1`, is the degenerate boundary case. -/
theorem compute_likelihood_finite_interior (times : List ℝ)
    (hmono : List.Chain' (· < ·) times) (hlen : 2 ≤ times.length)
    (h0 : 0 ≤ times.getD 0 0) (hT : 0 < times.getLastD 0) :
    (compute_likelihood times).length = times.length ∧
      ∀ k, 1 ≤ k → k ≤ times.length - 2 → likelihoodFinite times k := by
  refine ⟨compute_likelihood_length times, ?_⟩
  intro k hk1 hk2
  have hne : times ≠ [] := by
    intro h; rw [h] at hlen; simp at hlen
  have hlast : times.getLastD 0 = times.getD (times.length - 1) 0 :=
    getLastD_eq_getD times 0 hne
  have hkN : k < times.length := by omega
  have htk_pos : 0 < times.getD k 0 :=
    lt_of_le_of_lt h0 (getD_strictMono times hmono 0 k (by omega) hkN)
  have htk_lt : times.getD k 0 < times.getLastD 0 := by
    rw [hlast]
    exact getD_strictMono times hmono k (times.length - 1) (by omega) (by omega)
  simp only [likelihoodFinite]
  have hv_pos : 0 < times.getD k 0 / times.getLastD 0 := div_pos htk_pos hT
  have hv_lt1 : times.getD k 0 / times.getLastD 0 < 1 := (div_lt_one hT).2 htk_lt
  refine ⟨ne_of_gt hT, ?_, ?_, ?_⟩
  · exact div_pos (by exact_mod_cast Nat.lt_of_lt_of_le Nat.zero_lt_one hk1) hv_pos
  · refine div_pos ?_ (by linarith)
    have : (k : ℝ) < (times.length : ℝ) := by exact_mod_cast hkN
    linarith
  · exact_mod_cast Nat.lt_of_lt_of_le Nat.zero_lt_one (by omega : 1 ≤ times.length)

/-- C1 amended witness at `times = [1, 2, 3]`, `k = 1`. -/
theorem compute_likelihood_finite_interior_witness :
    (List.Chain' (· < ·) [(1 : ℝ), 2, 3] ∧ 2 ≤ ([(1 : ℝ), 2, 3]).length ∧
        0 ≤ ([(1 : ℝ), 2, 3]).getD 0 0 ∧ 0 < ([(1 : ℝ), 2, 3]).getLastD 0) ∧
      (compute_likelihood [(1 : ℝ), 2, 3]).length = 3 ∧
        likelihoodFinite [(1 : ℝ), 2, 3] 1 := by
  have h1 : List.Chain' (· < ·) [(1 : ℝ), 2, 3] := by
    simp [List.chain'_cons]; norm_num
  have h := compute_likelihood_finite_interior [(1 : ℝ), 2, 3] h1
    (by norm_num) (by norm_num) (by norm_num)
  exact ⟨⟨h1, by norm_num, by norm_num, by norm_num⟩, h.1,
    h.2 1 le_rfl (by norm_num)⟩

/-- C3: on any nonempty input `find_change_points` raises a `NameError`
(`argmax`, `compute_tau` and `beta` are unbound names in the loop body and
the function never returns its results), rather than returning one
change-point result per 1000-event chunk. -/
theorem find_change_points_raises :
    find_change_points [(1 : ℝ), 2, 3] (5 / 100) =
      Except.error "NameError: name argmax is not defined" := rfl

/-- C6 counterexample: the code realizes the critical value for any
requested confidence level through `tau95`, which has no alpha parameter;
for `n = 50` and `alpha = 0.1 ≠ 0.05` it returns a value instead of raising
a "not implemented" error. -/
theorem criticalValue_alpha_ignored :
    criticalValue 50 (1 / 10) =
      Except.ok ((3.0123 + 0.4835 * Real.log 50 - 0.00957 * Real.log (50 ^ 2)
        - 0.001488 * Real.log (50 ^ 3)) / 50) := by
  rw [criticalValue, tau95, if_pos]
  norm_num

/-- C6 as amended: the critical-value function `tau95` hard-codes the
`alpha = 0.05` coefficients and takes no alpha parameter (the `alpha`
argument of `find_change_points` is never used), so no `alpha ≠ 0.05` error
path exists; `tau95 n` raises its `RuntimeError('Implement me')` exactly
when `n ≤ 1`. -/
theorem tau95_error_iff (n : ℝ) :
    (∃ e, tau95 n = Except.error e) ↔ n ≤ 1 := by
  constructor
  · rintro ⟨e, he⟩
    by_contra h
    push_neg at h
    rw [tau95] at he
    by_cases h2 : n ≤ 100
    · rw [if_pos ⟨h, h2⟩] at he
      exact Except.noConfusion he
    · rw [if_neg (by tauto), if_pos (lt_of_not_le h2)] at he
      exact Except.noConfusion he
  · intro h
    refine ⟨"RuntimeError: Implement me", ?_⟩
    rw [tau95, if_neg, if_neg (by linarith)]
    rintro ⟨h1, -⟩
    exact absurd h (not_le.2 h1)

/-- C9: each branch of `tau95` is affine (degree one) in `log n`, because
the code evaluates `log(n**2) = 2·log n` and `log(n**3) = 3·log n` rather
than powers of `log n`. -/
theorem tau95_affine_in_log (n : ℝ) (h1 : 1 < n) :
    tau95 n = Except.ok (if n ≤ 100 then
        (3.0123 + (0.4835 - 2 * 0.00957 - 3 * 0.001488) * Real.log n) / n
      else
        (3.0806 + (0.4894 - 2 * 0.02086) * Real.log n) / n) := by
  by_cases h2 : n ≤ 100
  · rw [tau95, if_pos ⟨h1, h2⟩, if_pos h2]
    rw [Real.log_pow, Real.log_pow]
    push_cast
    ring_nf
  · rw [tau95, if_neg (by tauto), if_pos (lt_of_not_le h2), if_neg h2]
    rw [Real.log_pow]
    push_cast
    ring_nf

/-- Witness for C9 at `n = 50`. -/
theorem tau95_affine_in_log_witness :
    1 < (50 : ℝ) ∧ tau95 50 = Except.ok (if (50 : ℝ) ≤ 100 then
        (3.0123 + (0.4835 - 2 * 0.00957 - 3 * 0.001488) * Real.log 50) / 50
      else
        (3.0806 + (0.4894 - 2 * 0.02086) * Real.log 50) / 50) :=
  ⟨by norm_num, tau95_affine_in_log 50 (by norm_num)⟩

/-! ## Embedding of `photon_tools/fcs_mem.py`

The function `mem` is modelled over an explicit store of numpy arrays so
that in-place writes and rebinding of the local name `p` are distinguishable
from mutation of the arguments.  1-D arrays (`vec`) and 2-D arrays (`mat`)
live in separate address spaces.  The argument arrays sit at fixed
addresses: `y ↦ vec 0`, `sigma ↦ vec 1`, `p0 ↦ vec 2`, `expected ↦ vec 3`,
`models ↦ mat 0`; every array `mem` itself allocates lives at an address
`≥ 10`.  Temporaries that never survive a statement (`delta`, `q`,
`H + nu*delta`, `-np.eye`, `np.zeros`) are passed by value. -/

/-- Elementwise product divided by the elementwise square, then summed:
`np.sum(a * b / s**2)` as it appears in the assembly of `H` and `g0`. -/
noncomputable def prodDivSqSum (a b s : List ℝ) : ℝ :=
  (List.zipWith (fun x si => x / si ^ 2) (List.zipWith (· * ·) a b) s).sum

/-- Entry `H[m,n] = 2 / Npts * np.sum(models[m,:] * models[n,:] / sigma**2)`
with `Npts = models.shape[1]`. -/
noncomputable def Hentry (models : List (List ℝ)) (sigma : List ℝ) (m n : ℕ) : ℝ :=
  2 / (models.headI.length : ℝ) *
    prodDivSqSum (models.getD m []) (models.getD n []) sigma

/-- The matrix `H` as filled entry by entry by the double loop in `mem`
(row `m`, column `n`). -/
noncomputable def HmatL (models : List (List ℝ)) (sigma : List ℝ) : List (List ℝ) :=
  (List.range models.length).map fun m =>
    (List.range models.length).map fun n => Hentry models sigma m n

/-- Entry `g0[n] = 2 / Npts * np.sum(models[n,:] * y / sigma**2)`. -/
noncomputable def g0entry (models : List (List ℝ)) (y sigma : List ℝ) (n : ℕ) : ℝ :=
  2 / (models.headI.length : ℝ) * prodDivSqSum (models.getD n []) y sigma

/-- The vector `g0` as filled by the loop in `mem`. -/
noncomputable def g0vecL (models : List (List ℝ)) (y sigma : List ℝ) : List ℝ :=
  (List.range models.length).map fun n => g0entry models y sigma n

/-- Store of numpy arrays by address. -/
structure Heap where
  vec : ℕ → List ℝ
  mat : ℕ → List (List ℝ)

/-- In-place update of the 1-D array at address `a`. -/
def Heap.setVec (h : Heap) (a : ℕ) (v : List ℝ) : Heap :=
  { h with vec := fun i => if i = a then v else h.vec i }

/-- In-place update of the 2-D array at address `a`. -/
def Heap.setMat (h : Heap) (a : ℕ) (v : List (List ℝ)) : Heap :=
  { h with mat := fun i => if i = a then v else h.mat i }

@[simp] theorem Heap.vec_setVec (h : Heap) (a : ℕ) (v : List ℝ) (i : ℕ) :
    (h.setVec a v).vec i = if i = a then v else h.vec i := rfl

@[simp] theorem Heap.mat_setVec (h : Heap) (a : ℕ) (v : List ℝ) :
    (h.setVec a v).mat = h.mat := rfl

@[simp] theorem Heap.vec_setMat (h : Heap) (a : ℕ) (v : List (List ℝ)) :
    (h.setMat a v).vec = h.vec := rfl

@[simp] theorem Heap.mat_setMat (h : Heap) (a : ℕ) (v : List (List ℝ)) (i : ℕ) :
    (h.setMat a v).mat i = if i = a then v else h.mat i := rfl

/-- Type of the external QP solver `shrager(Q, g, C, d, x0)` (module
`.shrager`, outside the analysed sources; §6 of the spec treats it as a
black box).  `mem` uses only the first component of the returned pair
`pNew, _ = shrager(...)`, which is what the abstract function yields. -/
def Solver : Type :=
  List (List ℝ) → List ℝ → List (List ℝ) → List ℝ → List ℝ → List ℝ

/-- `-np.eye(n)`. -/
def negEye (n : ℕ) : List (List ℝ) :=
  (List.range n).map fun i =>
    (List.range n).map fun j => if i = j then -1 else 0

/-- `np.zeros(n)`. -/
def zerosL (n : ℕ) : List ℝ := List.replicate n 0

/-- The `while True:` loop of `mem` over the heap.  `pA` is the address the
local name `p` currently refers to and `freshV` is the next unused 1-D
address.  Each iteration recomputes the diagonal of
`delta = np.diag(log(p / expected) / p)` from the current `p`; the
`if True:` plotting block then overwrites every entry of `p` IN PLACE with
the last sample of `np.linspace(1e-5, 2)`, i.e. `2.0`; `shrager` is called
on `Q = H + nu * delta` (with `H` read from its heap slot), `g0`, the
constraints `C = -np.eye(Nmodels)`, `d = np.zeros(Nmodels)` and `x0 = p`,
allocating its result, after which `p = pNew` rebinds `p` to that fresh
address.  `converged` is the literal `False`, so the `break` is
unreachable and the loop can only exhaust its fuel, reported as `none`. -/
noncomputable def memLoop (solver : Solver) (expected : List ℝ) (nu : ℝ) (Nmodels : ℕ) :
    ℕ → Heap → ℕ → ℕ → Except String (Option (List ℝ)) × Heap
  | 0, h, _, _ => (Except.ok none, h)
  | fuel + 1, h, pA, freshV =>
    let p := h.vec pA
    let deltaDiag : ℕ → ℝ := fun i =>
      Real.log (p.getD i 0 / expected.getD i 0) / p.getD i 0
    let h1 := h.setVec pA (p.map fun _ => (2 : ℝ))
    let Q : List (List ℝ) :=
      (List.range Nmodels).map fun m => (List.range Nmodels).map fun n =>
        ((h1.mat 10).getD m []).getD n 0 + nu * (if m = n then deltaDiag m else 0)
    let pNew := solver Q (h1.vec 11) (negEye Nmodels) (zerosL Nmodels) (h1.vec pA)
    let h2 := h1.setVec freshV pNew
    let converged := false
    if converged then (Except.ok (some pNew), h2)
    else memLoop solver expected nu Nmodels fuel h2 freshV (freshV + 1)

/-- The shape assertion on `expected`: absent means the scalar default
`expected = 1`, present means `assert expected.shape == (Nmodels,)`. -/
def expectedShapeOk : Option (List ℝ) → ℕ → Bool
  | none, _ => true
  | some e, n => e.length == n

/-- Embedding of `mem(y, models, sigma, p0=None, expected=None, nu=5e-6,
delta_thresh=1e-4)`.  The `assert` statements become `Except.error`;
`delta_thresh` is never read by the body and is omitted; `fuel` bounds the
number of iterations of the (otherwise endless) `while True:` loop.  After
the asserts, `p = p0.copy()` allocates `vec 10` (the default `p0` is
`np.ones(Nmodels)`), `g0` is assembled into `vec 11` and `H` into `mat 10`,
and the scalar default `expected = 1` is represented by the broadcast-equal
vector of ones.  The result pairs the Python outcome with the final heap. -/
noncomputable def mem (solver : Solver) (fuel : ℕ) (y : List ℝ) (models : List (List ℝ))
    (sigma : List ℝ) (p0 expected : Option (List ℝ)) (nu : ℝ) :
    Except String (Option (List ℝ)) × Heap :=
  let Nmodels := models.length
  let Npts := models.headI.length
  let h0 : Heap :=
    { vec := fun a =>
        if a = 0 then y else if a = 1 then sigma
        else if a = 2 then p0.getD [] else if a = 3 then expected.getD []
        else []
      mat := fun a => if a = 0 then models else [] }
  if y.length ≠ Npts then
    (Except.error "AssertionError: y.shape == (Npts,)", h0)
  else if sigma.length ≠ Npts then
    (Except.error "AssertionError: sigma.shape == (Npts,)", h0)
  else if expectedShapeOk expected Nmodels then
    let p0v := p0.getD (List.replicate Nmodels 1)
    if p0v.length ≠ Nmodels then
      (Except.error "AssertionError: p0.shape == (Nmodels,)", h0)
    else
      let expectedV := expected.getD (List.replicate Nmodels 1)
      let h1 := ((h0.setVec 10 p0v).setVec 11 (g0vecL models y sigma)).setMat 10
        (HmatL models sigma)
      memLoop solver expectedV nu Nmodels fuel h1 10 12
  else
    (Except.error "AssertionError: expected.shape == (Nmodels,)", h0)

/-! ### Loop invariants of `mem` -/

/-- The loop never produces a value: `converged` is the literal `False`. -/
theorem memLoop_fst (solver : Solver) (expected : List ℝ) (nu : ℝ)
    (Nmodels : ℕ) : ∀ (fuel : ℕ) (h : Heap) (pA freshV : ℕ),
    (memLoop solver expected nu Nmodels fuel h pA freshV).1 = Except.ok none := by
  intro fuel
  induction fuel with
  | zero => intro h pA freshV; rfl
  | succ n ih =>
    intro h pA freshV
    rw [memLoop]
    exact ih _ _ _

/-- The loop writes 1-D arrays only at the current `p` address and at fresh
addresses, so any other address is untouched. -/
theorem memLoop_vec_avoids (solver : Solver) (expected : List ℝ) (nu : ℝ)
    (Nmodels : ℕ) : ∀ (fuel : ℕ) (h : Heap) (pA freshV a : ℕ),
    a ≠ pA → a < freshV →
    (memLoop solver expected nu Nmodels fuel h pA freshV).2.vec a = h.vec a := by
  intro fuel
  induction fuel with
  | zero => intro h pA freshV a _ _; rfl
  | succ n ih =>
    intro h pA freshV a hpA hfresh
    rw [memLoop]
    simp only [Bool.false_eq_true, if_false]
    rw [ih _ _ _ _ (Nat.ne_of_lt hfresh) (Nat.lt_succ_of_lt hfresh)]
    simp [hpA, Nat.ne_of_lt hfresh]

/-- The loop allocates no 2-D arrays and writes none in place. -/
theorem memLoop_mat_const (solver : Solver) (expected : List ℝ) (nu : ℝ)
    (Nmodels : ℕ) : ∀ (fuel : ℕ) (h : Heap) (pA freshV a : ℕ),
    (memLoop solver expected nu Nmodels fuel h pA freshV).2.mat a = h.mat a := by
  intro fuel
  induction fuel with
  | zero => intro h pA freshV a; rfl
  | succ n ih =>
    intro h pA freshV a
    rw [memLoop]
    simp only [Bool.false_eq_true, if_false]
    rw [ih]
    simp

/-! ### Closed forms of the assembled fit matrices -/

/-- Unfolding one element of `np.sum(a * b / s**2)`. -/
theorem prodDivSqSum_cons (x y z : ℝ) (a b s : List ℝ) :
    prodDivSqSum (x :: a) (y :: b) (z :: s) =
      x * y / z ^ 2 + prodDivSqSum a b s := by
  simp [prodDivSqSum]

/-- The vectorized numpy sum `np.sum(a * b / s**2)` over three arrays of a
common length `n` equals the corresponding mathematical sum. -/
theorem prodDivSqSum_eq (n : ℕ) :
    ∀ (a b s : List ℝ), a.length = n → b.length = n → s.length = n →
      prodDivSqSum a b s =
        ∑ i ∈ Finset.range n, a.getD i 0 * b.getD i 0 / (s.getD i 0) ^ 2 := by
  induction n with
  | zero =>
    intro a b s ha _ _
    rw [List.length_eq_zero] at ha
    subst ha
    simp [prodDivSqSum]
  | succ n ih =>
    intro a b s ha hb hs
    cases a with
    | nil => simp at ha
    | cons x a' =>
      cases b with
      | nil => simp at hb
      | cons y b' =>
        cases s with
        | nil => simp at hs
        | cons z s' =>
          simp only [List.length_cons, Nat.succ.injEq] at ha hb hs
          rw [Finset.sum_range_succ', prodDivSqSum_cons, ih a' b' s' ha hb hs]
          simp only [List.getD_cons_succ, List.getD_cons_zero]
          ring

/-- Rows of a rectangular `models` matrix have length `Npts`. -/
theorem row_length (models : List (List ℝ))
    (hrect : ∀ r ∈ models, r.length = models.headI.length)
    (m : ℕ) (hm : m < models.length) :
    (models.getD m []).length = models.headI.length := by
  rw [List.getD_eq_getElem _ _ hm]
  exact hrect _ (List.getElem_mem hm)

/-- Closed form of `H[m,n]` for aligned shapes. -/
theorem Hentry_eq (models : List (List ℝ)) (sigma : List ℝ)
    (hrect : ∀ r ∈ models, r.length = models.headI.length)
    (hs : sigma.length = models.headI.length)
    (m n : ℕ) (hm : m < models.length) (hn : n < models.length) :
    Hentry models sigma m n =
      2 / (models.headI.length : ℝ) *
        ∑ i ∈ Finset.range models.headI.length,
          (models.getD m []).getD i 0 * (models.getD n []).getD i 0
            / (sigma.getD i 0) ^ 2 := by
  rw [Hentry, prodDivSqSum_eq models.headI.length _ _ _
    (row_length models hrect m hm) (row_length models hrect n hn) hs]

/-- Closed form of `g0[n]` for aligned shapes. -/
theorem g0entry_eq (models : List (List ℝ)) (y sigma : List ℝ)
    (hrect : ∀ r ∈ models, r.length = models.headI.length)
    (hy : y.length = models.headI.length)
    (hs : sigma.length = models.headI.length)
    (n : ℕ) (hn : n < models.length) :
    g0entry models y sigma n =
      2 / (models.headI.length : ℝ) *
        ∑ i ∈ Finset.range models.headI.length,
          (models.getD n []).getD i 0 * y.getD i 0 / (sigma.getD i 0) ^ 2 := by
  rw [g0entry, prodDivSqSum_eq models.headI.length _ _ _
    (row_length models hrect n hn) hy hs]

/-- Entry `m` of a list built by mapping over `List.range`. -/
theorem getD_map_range {α : Type} (N : ℕ) (f : ℕ → α) (m : ℕ) (hm : m < N)
    (d : α) : ((List.range N).map f).getD m d = f m := by
  rw [List.getD_eq_getElem _ _ (by simpa using hm)]
  rw [List.getElem_map, List.getElem_range]

/-! ### Claims about `fcs_mem.py` -/

/-- C2: on the spec scenario `y = [1,1,1]`, `models = [[1,1,1],[0,0,1]]`,
`sigma = [1,1,1]`, `expected = [1,1]`, `p0 = [1,1]`, `nu = 5e-6`, `mem`
never returns: `converged` is assigned the literal `False` every iteration
and there is no iteration cap, so whatever the QP solver returns and
however much fuel the loop is given, no fit result is ever produced. -/
theorem mem_scenario_never_returns (solver : Solver) (fuel : ℕ) :
    (mem solver fuel [1, 1, 1] [[1, 1, 1], [0, 0, 1]] [1, 1, 1]
        (some [1, 1]) (some [1, 1]) (5 / 1000000)).1 = Except.ok none := by
  simp only [mem]
  norm_num [expectedShapeOk]
  exact memLoop_fst _ _ _ _ _ _ _ _

/-- Shape-mismatch condition on the inputs of `mem`, as the spec words it:
`models.shape[1] != y.shape[0]`, or any other length mismatch among
`sigma` and the provided `expected` or `p0`. -/
def memShapeMismatch (y : List ℝ) (models : List (List ℝ)) (sigma : List ℝ)
    (p0 expected : Option (List ℝ)) : Prop :=
  y.length ≠ models.headI.length ∨ sigma.length ≠ models.headI.length ∨
    (∃ e, expected = some e ∧ e.length ≠ models.length) ∨
    (∃ q, p0 = some q ∧ q.length ≠ models.length)

/-- C7 as amended: `mem` raises an `AssertionError` exactly on a shape
mismatch among `y`, `models`, `sigma` and the provided `expected` or `p0`;
the values of `sigma` are never inspected, so non-positive `sigma` entries
are NOT rejected. -/
theorem mem_error_iff_shape_mismatch (solver : Solver) (fuel : ℕ)
    (y : List ℝ) (models : List (List ℝ)) (sigma : List ℝ)
    (p0 expected : Option (List ℝ)) (nu : ℝ) :
    (∃ e, (mem solver fuel y models sigma p0 expected nu).1 = Except.error e)
      ↔ memShapeMismatch y models sigma p0 expected := by
  simp only [mem, memShapeMismatch]
  split_ifs with h1 h2 h3 h4
  · simp [h1]
  · simp [h2]
  · -- expected check passed, p0 check failed
    simp only [Except.error.injEq, exists_eq]
    constructor
    · intro _
      cases p0 with
      | none => simp [List.length_replicate] at h4
      | some q =>
        simp only [Option.getD_some] at h4
        exact Or.inr (Or.inr (Or.inr ⟨q, rfl, h4⟩))
    · intro _; exact ⟨_, rfl⟩
  · -- all checks passed: the loop returns `ok`
    rw [memLoop_fst]
    constructor
    · rintro ⟨e, he⟩
      exact Except.noConfusion he
    · rintro (h | h | ⟨e, rfl, he⟩ | ⟨q, rfl, hq⟩)
      · exact absurd h h1
      · exact absurd h h2
      · simp [expectedShapeOk, he] at h3
      · simp only [Option.getD_some] at h4
        exact absurd hq h4
  · -- expected check failed
    simp only [Except.error.injEq, exists_eq]
    constructor
    · intro _
      cases expected with
      | none => simp [expectedShapeOk] at h3
      | some e =>
        simp only [expectedShapeOk, beq_iff_eq] at h3
        exact Or.inr (Or.inr (Or.inl ⟨e, rfl, by simpa using h3⟩))
    · intro _; exact ⟨_, rfl⟩

/-- C7 counterexample: `sigma = [0,1,1]` contains a non-positive value, yet
`mem` does not reject it: the call passes all assertions and proceeds into
the fit (dividing by `sigma**2 = 0`) instead of raising an error. -/
theorem mem_sigma_zero_not_rejected :
    ([(0 : ℝ), 1, 1]).getD 0 0 ≤ 0 ∧
      (mem (fun _ _ _ _ x0 => x0) 1 [1, 1, 1] [[1, 1, 1], [0, 0, 1]]
          [0, 1, 1] (some [1, 1]) (some [1, 1]) (5 / 1000000)).1 =
        Except.ok none := by
  refine ⟨by norm_num, ?_⟩
  simp only [mem]
  norm_num [expectedShapeOk]
  exact memLoop_fst _ _ _ _ _ _ _ _

/-- The one-time-assembly property of the fit matrices: the stored entries
of `H` and `g0` satisfy the spec formulas, and after any number of loop
iterations of any `mem` run on these arrays the stored `H` and `g0` are
still exactly the initially assembled ones. -/
def FitMatricesAssembled (models : List (List ℝ)) (y sigma : List ℝ) : Prop :=
  (∀ m < models.length, ∀ n < models.length,
      ((HmatL models sigma).getD m []).getD n 0 =
        2 / (models.headI.length : ℝ) *
          ∑ i ∈ Finset.range models.headI.length,
            (models.getD m []).getD i 0 * (models.getD n []).getD i 0
              / (sigma.getD i 0) ^ 2) ∧
  (∀ n < models.length,
      (g0vecL models y sigma).getD n 0 =
        2 / (models.headI.length : ℝ) *
          ∑ i ∈ Finset.range models.headI.length,
            (models.getD n []).getD i 0 * y.getD i 0 / (sigma.getD i 0) ^ 2) ∧
  (∀ (solver : Solver) (fuel : ℕ) (p0 expected : Option (List ℝ)) (nu : ℝ),
      ¬ memShapeMismatch y models sigma p0 expected →
      (mem solver fuel y models sigma p0 expected nu).2.mat 10 =
          HmatL models sigma ∧
        (mem solver fuel y models sigma p0 expected nu).2.vec 11 =
          g0vecL models y sigma)

/-- C5: for rectangular `models` and aligned `y`, `sigma`, the matrices `H`
and `g0` assembled at the start of `mem` satisfy
`H[m,n] = (2/Npts)·Σ_i models[m,i]·models[n,i]/sigma[i]²` and
`g0[n] = (2/Npts)·Σ_i models[n,i]·y[i]/sigma[i]²`, and they are never
recomputed or overwritten by the iteration loop. -/
theorem mem_assembles_fit_matrices_once (models : List (List ℝ))
    (y sigma : List ℝ)
    (hrect : ∀ r ∈ models, r.length = models.headI.length)
    (hy : y.length = models.headI.length)
    (hs : sigma.length = models.headI.length) :
    FitMatricesAssembled models y sigma := by
  refine ⟨?_, ?_, ?_⟩
  · intro m hm n hn
    rw [HmatL, getD_map_range _ _ m hm, getD_map_range _ _ n hn]
    exact Hentry_eq models sigma hrect hs m n hm hn
  · intro n hn
    rw [g0vecL, getD_map_range _ _ n hn]
    exact g0entry_eq models y sigma hrect hy hs n hn
  · intro solver fuel p0 expected nu hnm
    rw [memShapeMismatch] at hnm
    push_neg at hnm
    obtain ⟨ha, hb, hc, hd⟩ := hnm
    have hexp : expectedShapeOk expected models.length = true := by
      cases expected with
      | none => rfl
      | some e =>
        have := hc e rfl
        simp [expectedShapeOk, this]
    have hp0 : ¬ (p0.getD (List.replicate models.length 1)).length
        ≠ models.length := by
      cases p0 with
      | none => simp
      | some q =>
        have := hd q rfl
        simpa using this
    simp only [mem]
    rw [if_neg (by simpa using ha), if_neg (by simpa using hb),
      if_pos hexp, if_neg hp0]
    constructor
    · rw [memLoop_mat_const]
      simp
    · rw [memLoop_vec_avoids _ _ _ _ fuel _ 10 12 11 (by norm_num)
        (by norm_num)]
      simp

/-- Witness for C5 on the spec scenario arrays. -/
theorem mem_assembles_fit_matrices_once_witness :
    ((∀ r ∈ [[(1 : ℝ), 1, 1], [0, 0, 1]],
        r.length = ([[(1 : ℝ), 1, 1], [0, 0, 1]]).headI.length) ∧
      ([(1 : ℝ), 1, 1]).length = ([[(1 : ℝ), 1, 1], [0, 0, 1]]).headI.length) ∧
      FitMatricesAssembled [[(1 : ℝ), 1, 1], [0, 0, 1]] [1, 1, 1] [1, 1, 1] := by
  have hrect : ∀ r ∈ [[(1 : ℝ), 1, 1], [0, 0, 1]],
      r.length = ([[(1 : ℝ), 1, 1], [0, 0, 1]]).headI.length := by
    intro r hr
    simp only [List.mem_cons, List.not_mem_nil, or_false] at hr
    rcases hr with rfl | rfl <;> rfl
  exact ⟨⟨hrect, rfl⟩,
    mem_assembles_fit_matrices_once _ _ _ hrect rfl rfl⟩

/-- Quadratic form `xᵀ H x` of the matrix `H` assembled by `mem`. -/
noncomputable def quadFormH (models : List (List ℝ)) (sigma : List ℝ)
    (x : ℕ → ℝ) : ℝ :=
  ∑ m ∈ Finset.range models.length, ∑ n ∈ Finset.range models.length,
    x m * Hentry models sigma m n * x n

/-- Symmetry together with positive semi-definiteness of `H`. -/
def HSymmetricPSD (models : List (List ℝ)) (sigma : List ℝ) : Prop :=
  (∀ m n, Hentry models sigma m n = Hentry models sigma n m) ∧
  ∀ x : ℕ → ℝ, 0 ≤ quadFormH models sigma x

/-- Nonnegativity of the quadratic form of a weighted Gram matrix
`c · Σ_i A[m,i]·A[n,i]/s[i]²`. -/
theorem gram_quad_nonneg (N P : ℕ) (c : ℝ) (hc : 0 ≤ c) (A : ℕ → ℕ → ℝ)
    (s : ℕ → ℝ) (x : ℕ → ℝ) :
    0 ≤ ∑ m ∈ Finset.range N, ∑ n ∈ Finset.range N,
        x m * (c * ∑ i ∈ Finset.range P, A m i * A n i / s i ^ 2) * x n := by
  have key : ∑ m ∈ Finset.range N, ∑ n ∈ Finset.range N,
      x m * (c * ∑ i ∈ Finset.range P, A m i * A n i / s i ^ 2) * x n
      = c * ∑ i ∈ Finset.range P,
          (∑ m ∈ Finset.range N, x m * A m i) ^ 2 * (s i ^ 2)⁻¹ := by
    calc
      ∑ m ∈ Finset.range N, ∑ n ∈ Finset.range N,
          x m * (c * ∑ i ∈ Finset.range P, A m i * A n i / s i ^ 2) * x n
        = ∑ m ∈ Finset.range N, ∑ n ∈ Finset.range N, ∑ i ∈ Finset.range P,
            c * ((x m * A m i) * (x n * A n i) * (s i ^ 2)⁻¹) := by
          refine Finset.sum_congr rfl fun m _ => Finset.sum_congr rfl
            fun n _ => ?_
          simp only [Finset.mul_sum, Finset.sum_mul]
          exact Finset.sum_congr rfl fun i _ => by ring
      _ = ∑ i ∈ Finset.range P, ∑ m ∈ Finset.range N, ∑ n ∈ Finset.range N,
            c * ((x m * A m i) * (x n * A n i) * (s i ^ 2)⁻¹) := by
          rw [show (∑ m ∈ Finset.range N, ∑ n ∈ Finset.range N,
              ∑ i ∈ Finset.range P,
                c * ((x m * A m i) * (x n * A n i) * (s i ^ 2)⁻¹))
              = ∑ m ∈ Finset.range N, ∑ i ∈ Finset.range P,
                  ∑ n ∈ Finset.range N,
                    c * ((x m * A m i) * (x n * A n i) * (s i ^ 2)⁻¹)
            from Finset.sum_congr rfl fun m _ => Finset.sum_comm]
          exact Finset.sum_comm
      _ = ∑ i ∈ Finset.range P,
            c * ((∑ m ∈ Finset.range N, x m * A m i)
              * (∑ n ∈ Finset.range N, x n * A n i) * (s i ^ 2)⁻¹) := by
          refine Finset.sum_congr rfl fun i _ => ?_
          rw [Finset.sum_mul_sum]
          simp only [Finset.mul_sum, Finset.sum_mul]
      _ = c * ∑ i ∈ Finset.range P,
            (∑ m ∈ Finset.range N, x m * A m i) ^ 2 * (s i ^ 2)⁻¹ := by
          rw [Finset.mul_sum]
          refine Finset.sum_congr rfl fun i _ => by rw [sq]; ring
  rw [key]
  apply mul_nonneg hc
  apply Finset.sum_nonneg
  intro i _
  exact mul_nonneg (sq_nonneg _) (inv_nonneg.2 (sq_nonneg _))

/-- C8: for every rectangular `models` matrix with aligned `sigma` whose
entries are all nonzero, the matrix `H` computed by `mem` is symmetric and
positive semi-definite. -/
theorem H_symmetric_psd (models : List (List ℝ)) (sigma : List ℝ)
    (hrect : ∀ r ∈ models, r.length = models.headI.length)
    (hs : sigma.length = models.headI.length)
    (_hsig : ∀ v ∈ sigma, v ≠ 0) :
    HSymmetricPSD models sigma := by
  constructor
  · intro m n
    rw [Hentry, Hentry, prodDivSqSum, prodDivSqSum,
      List.zipWith_comm_of_comm (· * ·) mul_comm]
  · intro x
    rw [quadFormH, Finset.sum_congr rfl fun m hm => Finset.sum_congr rfl
      fun n hn => by
        rw [Hentry_eq models sigma hrect hs m n (Finset.mem_range.1 hm)
          (Finset.mem_range.1 hn)]]
    exact gram_quad_nonneg models.length models.headI.length _
      (by positivity) (fun m i => (models.getD m []).getD i 0)
      (fun i => sigma.getD i 0) x

/-- Witness for C8 on the scenario arrays. -/
theorem H_symmetric_psd_witness :
    ((∀ r ∈ [[(1 : ℝ), 1, 1], [0, 0, 1]],
        r.length = ([[(1 : ℝ), 1, 1], [0, 0, 1]]).headI.length) ∧
      ([(1 : ℝ), 1, 1]).length = ([[(1 : ℝ), 1, 1], [0, 0, 1]]).headI.length ∧
      (∀ v ∈ [(1 : ℝ), 1, 1], v ≠ 0)) ∧
      HSymmetricPSD [[(1 : ℝ), 1, 1], [0, 0, 1]] [1, 1, 1] := by
  have hrect : ∀ r ∈ [[(1 : ℝ), 1, 1], [0, 0, 1]],
      r.length = ([[(1 : ℝ), 1, 1], [0, 0, 1]]).headI.length := by
    intro r hr
    simp only [List.mem_cons, List.not_mem_nil, or_false] at hr
    rcases hr with rfl | rfl <;> rfl
  have hsig : ∀ v ∈ [(1 : ℝ), 1, 1], v ≠ 0 := by
    intro v hv
    simp only [List.mem_cons, List.not_mem_nil, or_false] at hv
    rcases hv with rfl | rfl | rfl <;> norm_num
  exact ⟨⟨hrect, rfl, hsig⟩, H_symmetric_psd _ _ hrect rfl hsig⟩

/-- C10: `mem` never mutates its array arguments: whatever the solver, the
fuel and the outcome (assertion error or loop exhaustion), the final heap
still holds the original `y`, `sigma`, `p0`, `expected` and `models` at the
argument addresses; the iteration only ever writes the `p = p0.copy()`
allocation and later fresh allocations. -/
theorem mem_preserves_arguments (solver : Solver) (fuel : ℕ) (y : List ℝ)
    (models : List (List ℝ)) (sigma : List ℝ) (p0 expected : Option (List ℝ))
    (nu : ℝ) :
    (mem solver fuel y models sigma p0 expected nu).2.vec 0 = y ∧
      (mem solver fuel y models sigma p0 expected nu).2.vec 1 = sigma ∧
      (mem solver fuel y models sigma p0 expected nu).2.vec 2 = p0.getD [] ∧
      (mem solver fuel y models sigma p0 expected nu).2.vec 3 =
        expected.getD [] ∧
      (mem solver fuel y models sigma p0 expected nu).2.mat 0 = models := by
  simp only [mem]
  split_ifs with h1 h2 h3 h4
  · exact ⟨rfl, rfl, rfl, rfl, rfl⟩
  · exact ⟨rfl, rfl, rfl, rfl, rfl⟩
  · exact ⟨rfl, rfl, rfl, rfl, rfl⟩
  · refine ⟨?_, ?_, ?_, ?_, ?_⟩
    · rw [memLoop_vec_avoids _ _ _ _ fuel _ 10 12 0 (by norm_num) (by norm_num)]
      simp
    · rw [memLoop_vec_avoids _ _ _ _ fuel _ 10 12 1 (by norm_num) (by norm_num)]
      simp
    · rw [memLoop_vec_avoids _ _ _ _ fuel _ 10 12 2 (by norm_num) (by norm_num)]
      simp
    · rw [memLoop_vec_avoids _ _ _ _ fuel _ 10 12 3 (by norm_num) (by norm_num)]
      simp
    · rw [memLoop_mat_const]
      simp
  · exact ⟨rfl, rfl, rfl, rfl, rfl⟩

end PhotonTools
